import Mathlib

/-!
Shallow embedding of the BER / visibility analyzer in src/m_ber.c, together
with proofs about its components.

Conventions of the embedding:
* C ints are modelled as ℤ (counts in this program stay far below overflow),
  array indices as ℕ.
* C doubles are modelled exactly: a finite double is an exact rational, and
  the non-finite results of dividing by zero are explicit constructors.  The
  only floating-point operations the program performs on data are final
  divisions of integer sums, so no rounding model is needed for the
  properties stated here.
* C integer division is partial: dividing by zero is undefined behavior, so
  it is modelled as Option, with none marking the undefined case.
* The input file is abstracted to a header plus the per-line result of the
  fscanf parse: some t for a line yielding two numeric fields whose first
  field is t, and none for a line where the parse fails.
-/

namespace MBer

/-- Model of a C double: an exact finite rational or a non-finite value. -/
inductive CDouble where
  | val : ℚ → CDouble
  | posInf : CDouble
  | negInf : CDouble
  | nan : CDouble
deriving DecidableEq, Repr

/-- Floating division of two exact integers, as C performs for expressions of
the form (double)a / b: the exact quotient when the divisor is non-zero, and
the IEEE non-finite results when the divisor is zero. -/
def fdiv (a b : ℤ) : CDouble :=
  if b = 0 then
    if 0 < a then CDouble.posInf else if a < 0 then CDouble.negInf else CDouble.nan
  else CDouble.val ((a : ℚ) / (b : ℚ))

/-- The C comparison a < b on doubles; every comparison with a NaN is false. -/
def CDouble.lt : CDouble → CDouble → Bool
  | CDouble.val a, CDouble.val b => decide (a < b)
  | CDouble.val _, CDouble.posInf => true
  | CDouble.negInf, CDouble.val _ => true
  | CDouble.negInf, CDouble.posInf => true
  | _, _ => false

/-- C integer division, truncating toward zero; none models the undefined
behavior of dividing by zero. -/
def cIntDiv (a b : ℤ) : Option ℤ := if b = 0 then none else some (Int.tdiv a b)

/-- WINDOW_SIZE in m_ber.c: 32 ns expressed in picoseconds. -/
def WINDOW_SIZE : ℕ := 32000

/-- GUARD_BAND in m_ber.c: the default guard band width in picoseconds. -/
def GUARD_BAND : ℕ := 100

/-- MIN_GUARD_BAND in m_ber.c. -/
def MIN_GUARD_BAND : ℕ := 100

/-- MAX_GUARD_BAND in m_ber.c. -/
def MAX_GUARD_BAND : ℕ := 300

/-- GUARD_BAND_STEP in m_ber.c. -/
def GUARD_BAND_STEP : ℕ := 1

/-- The C cast (int)t: truncation toward zero. -/
def ctrunc (t : ℚ) : ℤ := if 0 ≤ t then ⌊t⌋ else ⌈t⌉

/-- The bin index computed at line 86 of m_ber.c, namely
(int)(timestamp) % WINDOW_SIZE, with the C remainder taking the sign of the
dividend (Int.tmod). -/
def binIndex (t : ℚ) : ℤ := Int.tmod (ctrunc t) (WINDOW_SIZE : ℤ)

/-- One histogram increment, histogram[idx]++ (line 89).  The histogram is a
function from ℤ so that the effect of a hypothetical negative index remains
representable. -/
def histBump (hist : ℤ → ℤ) (idx : ℤ) : ℤ → ℤ :=
  fun i => if i = idx then hist i + 1 else hist i

/-- The ingestion loop of process_csv_and_create_histogram (lines 77-90):
start from the all-zero histogram and bump one bin per timestamp. -/
def buildHistogram (ts : List ℚ) : ℤ → ℤ :=
  ts.foldl (fun hist t => histBump hist (binIndex t)) (fun _ => 0)

/-- The fscanf loop condition (line 83): rows are consumed in order and
ingestion stops at the first row that does not parse as two numeric fields. -/
def parseRows : List (Option ℚ) → List ℚ
  | [] => []
  | none :: _ => []
  | some t :: rest => t :: parseRows rest

/-- process_csv_and_create_histogram (lines 60-94): skip the header line
unconditionally, parse data rows until the first malformed one, and histogram
the parsed timestamps. -/
def process_csv_and_create_histogram (_header : String) (rows : List (Option ℚ)) : ℤ → ℤ :=
  buildHistogram (parseRows rows)

/-- Sum of all WINDOW_SIZE histogram bins. -/
def histTotal (hist : ℤ → ℤ) : ℤ := ∑ i in Finset.range WINDOW_SIZE, hist (i : ℤ)

/-- Sum of the w histogram bins starting at index s. -/
def windowSum (h : ℕ → ℤ) (s w : ℕ) : ℤ := ∑ j in Finset.range w, h (s + j)

/-- The sliding loop of find_max_sum_window (lines 117-125), with fuel equal
to the number of remaining iterations; i is the loop counter, cur and mx the
running and maximal window sums, start the current champion start index. -/
def fmswLoop (h : ℕ → ℤ) (w : ℕ) : ℕ → ℕ → ℤ → ℤ → ℕ → ℤ × ℕ
  | 0, _, _, mx, start => (mx, start)
  | Nat.succ n, i, cur, mx, start =>
    if mx < cur + h i - h (i - w) then
      fmswLoop h w n (i + 1) (cur + h i - h (i - w)) (cur + h i - h (i - w)) (i - w + 1)
    else fmswLoop h w n (i + 1) (cur + h i - h (i - w)) mx start

/-- The maximal-window search of find_max_sum_window (lines 99-125): the
initial window is [0, w) with champion start 0, then the loop runs for i from
w to size - 1. -/
def fmswSearch (h : ℕ → ℤ) (size w : ℕ) : ℤ × ℕ :=
  fmswLoop h w (size - w) w (windowSum h 0 w) (windowSum h 0 w) 0

/-- The guard-band skip conditions of apply_guard_bands_and_calculate
(lines 165-182), as one predicate on the absolute bin index i: the three
continue conditions are, in order, the first-bin case (line 168), the
last-bin case (line 174) and the general case (line 179), with
half_guard_band = guard_band / 2 in C int arithmetic. -/
def excludedBin (last g i : ℕ) : Prop :=
  (i = 0 ∧ (1000 : ℤ) - ((g / 2 : ℕ) : ℤ) < ((i % 1000 : ℕ) : ℤ)) ∨
  (i = last ∧ ((i % 1000 : ℕ) : ℤ) < ((g / 2 : ℕ) : ℤ)) ∨
  ((i % 1000 : ℕ) : ℤ) < ((g / 2 : ℕ) : ℤ) ∨
  (1000 : ℤ) - ((g / 2 : ℕ) : ℤ) < ((i % 1000 : ℕ) : ℤ)

instance decExcludedBin (last g i : ℕ) : Decidable (excludedBin last g i) := by
  unfold excludedBin; infer_instance

/-- The exclusion rule exactly as claim C3 words it: offsets within g/2 of
either slot edge, meaning in [0, g/2) or in [1000 - g/2, 1000), are excluded;
except that the bin at absolute index 0 has only the trailing offsets of its
slot excluded and the last bin of the window has only the leading offsets. -/
def specExcludedBin (last g i : ℕ) : Prop :=
  if i = 0 then (1000 : ℤ) - ((g / 2 : ℕ) : ℤ) ≤ ((i % 1000 : ℕ) : ℤ)
  else if i = last then ((i % 1000 : ℕ) : ℤ) < ((g / 2 : ℕ) : ℤ)
  else (((i % 1000 : ℕ) : ℤ) < ((g / 2 : ℕ) : ℤ) ∨
    (1000 : ℤ) - ((g / 2 : ℕ) : ℤ) ≤ ((i % 1000 : ℕ) : ℤ))

instance decSpecExcludedBin (last g i : ℕ) : Decidable (specExcludedBin last g i) := by
  unfold specExcludedBin; infer_instance

/-- Common shape of the two tri-partition loops (lines 131-145 and 162-197):
walk the window bins in order, skip a bin when skip holds of its absolute
index, and add the remaining bins to C1, D1 or C2 through the
if / else-if / else cascade on the index. -/
def partFold (h : ℕ → ℤ) (start w part : ℕ) (skip : ℕ → Prop) [DecidablePred skip] :
    ℤ × ℤ × ℤ :=
  (List.range w).foldl
    (fun acc j =>
      let i := start + j
      if skip i then acc
      else if i < start + part then (acc.1 + h i, acc.2.1, acc.2.2)
      else if i < start + 2 * part then (acc.1, acc.2.1 + h i, acc.2.2)
      else (acc.1, acc.2.1, acc.2.2 + h i))
    (0, 0, 0)

/-- Lines 127-145: the partition of the chosen window without guard bands,
part_size = window_size / 3. -/
def plainSums (h : ℕ → ℤ) (start w : ℕ) : ℤ × ℤ × ℤ :=
  partFold h start w (w / 3) (fun _ => False)

/-- Lines 155-197: the partition skipping guard-banded bins;
last_bin_index = start_index + window_size - 1. -/
def guardSums (h : ℕ → ℤ) (start w g : ℕ) : ℤ × ℤ × ℤ :=
  partFold h start w (w / 3) (excludedBin (start + w - 1) g)

/-- find_max_sum_window (lines 97-152).  The first component is the C return
value; the second is the pair (BER1, V1) written through the output pointers
when the window fits, and none when the function returns -1 early and leaves
the outputs unwritten.  Both metrics are floating divisions (lines 148-149). -/
def find_max_sum_window (h : ℕ → ℤ) (size w : ℕ) : ℤ × Option (CDouble × CDouble) :=
  if size < w then (-1, none)
  else
    let start := (fmswSearch h size w).2
    let s := plainSums h start w
    ((start : ℤ), some (fdiv s.2.1 (s.1 + s.2.1 + s.2.2), fdiv (s.1 + s.2.2) s.2.1))

/-- apply_guard_bands_and_calculate (lines 155-202).  BER2 (line 200) is a
floating division; V2 (line 201) is written without a cast, so C evaluates the
int division (C1 + C2) / D1 and converts the truncated quotient to double.
The V2 component is none (undefined behavior) when D1 = 0. -/
def apply_guard_bands_and_calculate (h : ℕ → ℤ) (start w g : ℕ) :
    CDouble × Option CDouble :=
  let s := guardSums h start w g
  (fdiv s.2.1 (s.1 + s.2.1 + s.2.2),
   (cIntDiv (s.1 + s.2.2) s.2.1).map (fun q => CDouble.val (q : ℚ)))

/-- One iteration of the optimizer loop body (lines 218-232): update the BER
champion, then the visibility champion, both on strict comparison.  The state
is (min BER, max visibility, optimal BER width, optimal visibility width). -/
def sweepUpdate (st : CDouble × CDouble × ℕ × ℕ) (g : ℕ) (ber vis : CDouble) :
    CDouble × CDouble × ℕ × ℕ :=
  let st1 := if CDouble.lt ber st.1 then (ber, st.2.1, g, st.2.2.2) else st
  if CDouble.lt st1.2.1 vis then (st1.1, vis, st1.2.2.1, g) else st1

/-- The BER written by apply_guard_bands_and_calculate at guard width g. -/
def berAt (h : ℕ → ℤ) (start w g : ℕ) : CDouble :=
  (apply_guard_bands_and_calculate h start w g).1

/-- The visibility written by apply_guard_bands_and_calculate at guard width
g, none when its int division is undefined. -/
def visAt (h : ℕ → ℤ) (start w g : ℕ) : Option CDouble :=
  (apply_guard_bands_and_calculate h start w g).2

/-- One full iteration of the optimizer loop (lines 213-233): call
apply_guard_bands_and_calculate, then update both champions; an already
undefined state, or an undefined visibility, makes the whole run undefined. -/
def sweepStep (h : ℕ → ℤ) (start w : ℕ) (acc : Option (CDouble × CDouble × ℕ × ℕ))
    (g : ℕ) : Option (CDouble × CDouble × ℕ × ℕ) :=
  acc.bind (fun st => (visAt h start w g).map (fun vis => sweepUpdate st g (berAt h start w g) vis))

/-- find_optimal_guard_bands (lines 205-238): sweep the guard band width over
MIN_GUARD_BAND .. MAX_GUARD_BAND in steps of GUARD_BAND_STEP, starting from
min_BER = 1.0, max_visibility = 0.0 and both champion widths 0.  The result is
none when some iteration hits the undefined int division inside V2. -/
def find_optimal_guard_bands (h : ℕ → ℤ) (start w : ℕ) :
    Option (CDouble × CDouble × ℕ × ℕ) :=
  (List.range' MIN_GUARD_BAND (MAX_GUARD_BAND - MIN_GUARD_BAND + 1) GUARD_BAND_STEP).foldl
    (sweepStep h start w) (some (CDouble.val 1, CDouble.val 0, 0, 0))

/-- Loop invariant of the optimizer sweep over the already processed widths P:
the tracked min BER is a lower bound (in the NaN-aware C order) of all seen
BERs and is either the untouched initial champion (width 0, BER 1.0) or was
attained first at the tracked width; symmetrically for the max visibility
with initial value 0.0. -/
def sweepInv (h : ℕ → ℤ) (start w : ℕ) (P : List ℕ) (st : CDouble × CDouble × ℕ × ℕ) : Prop :=
  (∀ g ∈ P, CDouble.lt (berAt h start w g) st.1 = false) ∧
  ((st.2.2.1 = 0 ∧ st.1 = CDouble.val 1) ∨
    (st.2.2.1 ∈ P ∧ berAt h start w st.2.2.1 = st.1 ∧
      ∀ g ∈ P, g < st.2.2.1 → berAt h start w g ≠ st.1)) ∧
  (∀ g ∈ P, ∀ v, visAt h start w g = some v → CDouble.lt st.2.1 v = false) ∧
  ((st.2.2.2 = 0 ∧ st.2.1 = CDouble.val 0) ∨
    (st.2.2.2 ∈ P ∧ visAt h start w st.2.2.2 = some st.2.1 ∧
      ∀ g ∈ P, g < st.2.2.2 → visAt h start w g ≠ some st.2.1))

/-- Concrete histogram: 1 count in bin 0 and 2 counts in bin 2, empty
elsewhere. -/
def histA : ℕ → ℤ := fun i => if i = 0 then 1 else if i = 2 then 2 else 0

/-- Concrete histogram: a single spike of 5 counts in bin 201. -/
def histSpike : ℕ → ℤ := fun i => if i = 201 then 5 else 0

/-- Concrete histogram: a single spike of 7 counts in bin 3. -/
def histB : ℕ → ℤ := fun i => if i = 3 then 7 else 0

/-! Helper lemmas about the guard-band exclusion predicate. -/

lemma excludedBin_zero_false (last i : ℕ) : ¬ excludedBin last 0 i := by
  unfold excludedBin
  omega

lemma excludedBin_mono {g g' : ℕ} (last i : ℕ) (hg : g ≤ g')
    (hex : excludedBin last g i) : excludedBin last g' i := by
  have hdiv : g / 2 ≤ g' / 2 := Nat.div_le_div_right hg
  unfold excludedBin at hex ⊢
  omega

/-- C6: with guard band width 0, the guard-banded partition computation
returns exactly the same three sums C1, D1, C2 as the non-guard-banded
partition computation over the same window. -/
theorem mber_c6_guard_zero_eq_plain (h : ℕ → ℤ) (start w : ℕ) :
    guardSums h start w 0 = plainSums h start w := by
  unfold guardSums plainSums partFold
  apply List.foldl_ext
  intro acc j _
  rw [if_neg (excludedBin_zero_false (start + w - 1) (start + j))]
  rw [if_neg (fun hf : False => hf.elim)]

lemma partFold_mono (h : ℕ → ℤ) (hpos : ∀ i, 0 ≤ h i) (start part : ℕ)
    (skip1 skip2 : ℕ → Prop) [DecidablePred skip1] [DecidablePred skip2]
    (himp : ∀ i, skip1 i → skip2 i) :
    ∀ (l : List ℕ) (a b : ℤ × ℤ × ℤ), b.1 ≤ a.1 → b.2.1 ≤ a.2.1 → b.2.2 ≤ a.2.2 →
      (l.foldl (fun acc j =>
        if skip2 (start + j) then acc
        else if start + j < start + part then (acc.1 + h (start + j), acc.2.1, acc.2.2)
        else if start + j < start + 2 * part then (acc.1, acc.2.1 + h (start + j), acc.2.2)
        else (acc.1, acc.2.1, acc.2.2 + h (start + j))) b).1 ≤
      (l.foldl (fun acc j =>
        if skip1 (start + j) then acc
        else if start + j < start + part then (acc.1 + h (start + j), acc.2.1, acc.2.2)
        else if start + j < start + 2 * part then (acc.1, acc.2.1 + h (start + j), acc.2.2)
        else (acc.1, acc.2.1, acc.2.2 + h (start + j))) a).1 ∧
      (l.foldl (fun acc j =>
        if skip2 (start + j) then acc
        else if start + j < start + part then (acc.1 + h (start + j), acc.2.1, acc.2.2)
        else if start + j < start + 2 * part then (acc.1, acc.2.1 + h (start + j), acc.2.2)
        else (acc.1, acc.2.1, acc.2.2 + h (start + j))) b).2.1 ≤
      (l.foldl (fun acc j =>
        if skip1 (start + j) then acc
        else if start + j < start + part then (acc.1 + h (start + j), acc.2.1, acc.2.2)
        else if start + j < start + 2 * part then (acc.1, acc.2.1 + h (start + j), acc.2.2)
        else (acc.1, acc.2.1, acc.2.2 + h (start + j))) a).2.1 ∧
      (l.foldl (fun acc j =>
        if skip2 (start + j) then acc
        else if start + j < start + part then (acc.1 + h (start + j), acc.2.1, acc.2.2)
        else if start + j < start + 2 * part then (acc.1, acc.2.1 + h (start + j), acc.2.2)
        else (acc.1, acc.2.1, acc.2.2 + h (start + j))) b).2.2 ≤
      (l.foldl (fun acc j =>
        if skip1 (start + j) then acc
        else if start + j < start + part then (acc.1 + h (start + j), acc.2.1, acc.2.2)
        else if start + j < start + 2 * part then (acc.1, acc.2.1 + h (start + j), acc.2.2)
        else (acc.1, acc.2.1, acc.2.2 + h (start + j))) a).2.2 := by
  intro l
  induction l with
  | nil => intro a b h1 h2 h3; exact ⟨h1, h2, h3⟩
  | cons x xs ih =>
    intro a b h1 h2 h3
    simp only [List.foldl_cons]
    by_cases hs2 : skip2 (start + x)
    · rw [if_pos hs2]
      by_cases hs1 : skip1 (start + x)
      · rw [if_pos hs1]; exact ih a b h1 h2 h3
      · rw [if_neg hs1]
        split_ifs with hc1 hc2
        · exact ih _ b (by simpa using le_trans h1 (by linarith [hpos (start + x)])) h2 h3
        · exact ih _ b h1 (by simpa using le_trans h2 (by linarith [hpos (start + x)])) h3
        · exact ih _ b h1 h2 (by simpa using le_trans h3 (by linarith [hpos (start + x)]))
    · rw [if_neg hs2]
      have hs1 : ¬ skip1 (start + x) := fun hc => hs2 (himp _ hc)
      rw [if_neg hs1]
      split_ifs with hc1 hc2
      · exact ih _ _ (by simpa using h1) h2 h3
      · exact ih _ _ h1 (by simpa using h2) h3
      · exact ih _ _ h1 h2 (by simpa using h3)

/-- C7: each of the three partition sums produced by the guard-banded
computation is non-increasing in the guard band width: for g at most g2, every
partition sum at width g2 is at most the corresponding sum at width g, since a
wider band's exclusion set subsumes a narrower band's. -/
theorem mber_c7_guard_sums_antitone (h : ℕ → ℤ) (start w : ℕ) {g g2 : ℕ}
    (hpos : ∀ i, 0 ≤ h i) (hg : g ≤ g2) :
    (guardSums h start w g2).1 ≤ (guardSums h start w g).1 ∧
    (guardSums h start w g2).2.1 ≤ (guardSums h start w g).2.1 ∧
    (guardSums h start w g2).2.2 ≤ (guardSums h start w g).2.2 := by
  unfold guardSums partFold
  exact partFold_mono h hpos start (w / 3)
    (excludedBin (start + w - 1) g) (excludedBin (start + w - 1) g2)
    (fun i => excludedBin_mono (start + w - 1) i hg)
    (List.range w) (0, 0, 0) (0, 0, 0) le_rfl le_rfl le_rfl

/-- C7 witness: a concrete instantiation of the monotonicity theorem with an
all-ones histogram over the standard 3 ns window, widths 100 and 300. -/
theorem mber_c7_witness :
    (guardSums (fun _ => 1) 0 3000 300).1 ≤ (guardSums (fun _ => 1) 0 3000 100).1 ∧
    (guardSums (fun _ => 1) 0 3000 300).2.1 ≤ (guardSums (fun _ => 1) 0 3000 100).2.1 ∧
    (guardSums (fun _ => 1) 0 3000 300).2.2 ≤ (guardSums (fun _ => 1) 0 3000 100).2.2 :=
  mber_c7_guard_sums_antitone (fun _ => 1) 0 3000 (fun _ => by norm_num) (by norm_num)

/-- C3 counterexample: with window start 0, width 3000 and guard band 100
(half band 50), the bin at absolute index 0 is excluded by the code (its
offset 0 is below 50) although the claim says the first bin keeps its leading
offsets, and the bin at index 950 (offset 950 = 1000 - 50) is kept by the code
(the test is strict) although the claim's trailing interval [950, 1000)
contains it. -/
theorem mber_c3_counterexample :
    (excludedBin 2999 100 0 ∧ ¬ specExcludedBin 2999 100 0) ∧
    (¬ excludedBin 2999 100 950 ∧ specExcludedBin 2999 100 950) := by
  decide

/-- C3 amended: a bin at absolute index i of the window is excluded from all
three partition sums exactly when its offset i mod 1000 is below
half_guard_band = g / 2 or strictly above 1000 - g / 2; the two special cases
for the first histogram bin and the last window bin are subsumed by this
general rule and exempt nothing. -/
theorem mber_c3_exclusion_rule (last g i : ℕ) :
    excludedBin last g i ↔
      (((i % 1000 : ℕ) : ℤ) < ((g / 2 : ℕ) : ℤ) ∨
        (1000 : ℤ) - ((g / 2 : ℕ) : ℤ) < ((i % 1000 : ℕ) : ℤ)) := by
  unfold excludedBin
  omega

/-! The sliding-window search. -/

lemma windowSum_succ (h : ℕ → ℤ) (s w : ℕ) :
    windowSum h (s + 1) w = windowSum h s w + h (s + w) - h s := by
  unfold windowSum
  have h1 := Finset.sum_range_succ (fun j => h (s + j)) w
  have h2 := Finset.sum_range_succ' (fun j => h (s + j)) w
  have h3 : ∀ j, h (s + (j + 1)) = h (s + 1 + j) := fun j => by
    rw [show s + (j + 1) = s + 1 + j by omega]
  simp only [h3] at h2
  simp only [Nat.add_zero] at h2
  linarith [h1, h2]

lemma fmswLoop_go (h : ℕ → ℤ) (w : ℕ) :
    ∀ (n i : ℕ) (cur mx : ℤ) (start : ℕ),
      w ≤ i →
      cur = windowSum h (i - w) w →
      start ≤ i - w →
      windowSum h start w = mx →
      (∀ s, s ≤ i - w → windowSum h s w ≤ mx) →
      (∀ s, s < start → windowSum h s w < mx) →
      (fmswLoop h w n i cur mx start).2 ≤ i + n - w ∧
      windowSum h (fmswLoop h w n i cur mx start).2 w = (fmswLoop h w n i cur mx start).1 ∧
      (∀ s, s ≤ i + n - w → windowSum h s w ≤ (fmswLoop h w n i cur mx start).1) ∧
      (∀ s, s < (fmswLoop h w n i cur mx start).2 →
        windowSum h s w < (fmswLoop h w n i cur mx start).1) := by
  intro n
  induction n with
  | zero =>
    intro i cur mx start hwi hcur hst hmx hub hlb
    simp only [fmswLoop]
    exact ⟨by omega, hmx, fun s hs => hub s (by omega), hlb⟩
  | succ n ih =>
    intro i cur mx start hwi hcur hst hmx hub hlb
    simp only [fmswLoop]
    have hcur2 : cur + h i - h (i - w) = windowSum h (i - w + 1) w := by
      rw [hcur, windowSum_succ, Nat.sub_add_cancel hwi]
    by_cases hgt : mx < cur + h i - h (i - w)
    · rw [if_pos hgt]
      have hnext := ih (i + 1) (cur + h i - h (i - w)) (cur + h i - h (i - w)) (i - w + 1)
        (by omega)
        (by rw [hcur2, show i + 1 - w = i - w + 1 by omega])
        (by omega)
        hcur2.symm
        (by
          intro s hs
          rcases Nat.lt_or_ge s (i - w + 1) with hlt | hge
          · exact le_of_lt (lt_of_le_of_lt (hub s (by omega)) hgt)
          · have : s = i - w + 1 := by omega
            rw [this, hcur2])
        (by
          intro s hs
          exact lt_of_le_of_lt (hub s (by omega)) hgt)
      exact ⟨by omega, hnext.2.1, fun s hs => hnext.2.2.1 s (by omega), hnext.2.2.2⟩
    · rw [if_neg hgt]
      have hnext := ih (i + 1) (cur + h i - h (i - w)) mx start
        (by omega)
        (by rw [hcur2, show i + 1 - w = i - w + 1 by omega])
        (by omega)
        hmx
        (by
          intro s hs
          rcases Nat.lt_or_ge s (i - w + 1) with hlt | hge
          · exact hub s (by omega)
          · have : s = i - w + 1 := by omega
            rw [this, ← hcur2]
            omega)
        hlb
      exact ⟨by omega, hnext.2.1, fun s hs => hnext.2.2.1 s (by omega), hnext.2.2.2⟩

lemma fmswSearch_spec (h : ℕ → ℤ) (size w : ℕ) (hws : w ≤ size) :
    (fmswSearch h size w).2 ≤ size - w ∧
    windowSum h (fmswSearch h size w).2 w = (fmswSearch h size w).1 ∧
    (∀ s, s ≤ size - w → windowSum h s w ≤ (fmswSearch h size w).1) ∧
    (∀ s, s < (fmswSearch h size w).2 → windowSum h s w < (fmswSearch h size w).1) := by
  unfold fmswSearch
  have hgo := fmswLoop_go h w (size - w) w (windowSum h 0 w) (windowSum h 0 w) 0
    le_rfl
    (by rw [Nat.sub_self])
    (Nat.zero_le _)
    rfl
    (by
      intro s hs
      have : s = 0 := by omega
      rw [this])
    (by intro s hs; exact absurd hs (Nat.not_lt_zero s))
  exact ⟨by omega, hgo.2.1, fun s hs => hgo.2.2.1 s (by omega), hgo.2.2.2⟩

/-- C4: for window width w with 0 < w and w at most size, the search of
find_max_sum_window returns the smallest start index in [0, size - w] whose
window sum is maximal: every admissible start has a sum at most the winner's,
and every earlier start has a strictly smaller sum (only a strictly greater
sum replaces the champion).  Consequently, on a histogram whose only non-zero
bin is at index i, the returned start s satisfies s ≤ i < s + w. -/
theorem mber_c4_window_locator (h : ℕ → ℤ) (size w : ℕ) (hw : 0 < w) (hws : w ≤ size) :
    ((fmswSearch h size w).2 ≤ size - w ∧
      (∀ t, t ≤ size - w → windowSum h t w ≤ windowSum h (fmswSearch h size w).2 w) ∧
      (∀ t, t < (fmswSearch h size w).2 →
        windowSum h t w < windowSum h (fmswSearch h size w).2 w)) ∧
    (∀ i, i < size → 0 < h i → (∀ j, j < size → j ≠ i → h j = 0) →
      (fmswSearch h size w).2 ≤ i ∧ i < (fmswSearch h size w).2 + w) := by
  obtain ⟨hle, hwin, hub, hlb⟩ := fmswSearch_spec h size w hws
  refine ⟨⟨hle, fun t ht => by rw [hwin]; exact hub t ht, fun t ht => by rw [hwin]; exact hlb t ht⟩, ?_⟩
  intro i hi hpos hzero
  have hs0le : min i (size - w) ≤ size - w := min_le_right _ _
  have hs0i : min i (size - w) ≤ i := min_le_left _ _
  have his0 : i < min i (size - w) + w := by omega
  have hW0 : windowSum h (min i (size - w)) w = h i := by
    unfold windowSum
    rw [Finset.sum_eq_single (i - min i (size - w))]
    · rw [show min i (size - w) + (i - min i (size - w)) = i by omega]
    · intro b hb hbne
      rw [Finset.mem_range] at hb
      exact hzero (min i (size - w) + b) (by omega) (by omega)
    · intro hmem
      exact absurd (Finset.mem_range.mpr (by omega)) hmem
  have hWst : h i ≤ windowSum h (fmswSearch h size w).2 w := by
    rw [hwin, ← hW0]
    exact hub _ hs0le
  by_contra hcon
  have hmiss : ∀ j, j < w → (fmswSearch h size w).2 + j ≠ i := by
    intro j hj
    rcases Nat.lt_or_ge i (fmswSearch h size w).2 with hlt | hge
    · omega
    · have : ¬ i < (fmswSearch h size w).2 + w := fun hcc => hcon ⟨hge, hcc⟩
      omega
  have hWz : windowSum h (fmswSearch h size w).2 w = 0 := by
    unfold windowSum
    apply Finset.sum_eq_zero
    intro j hj
    rw [Finset.mem_range] at hj
    exact hzero _ (by omega) (hmiss j hj)
  omega

/-- C4 witness: a histogram of size 5 whose only count sits in bin 3, searched
with window width 2; the theorem applies and in particular places bin 3 inside
the returned window. -/
theorem mber_c4_witness :
    (((fmswSearch histB 5 2).2 ≤ 5 - 2 ∧
      (∀ t, t ≤ 5 - 2 → windowSum histB t 2 ≤ windowSum histB (fmswSearch histB 5 2).2 2) ∧
      (∀ t, t < (fmswSearch histB 5 2).2 →
        windowSum histB t 2 < windowSum histB (fmswSearch histB 5 2).2 2)) ∧
    (∀ i, i < 5 → 0 < histB i → (∀ j, j < 5 → j ≠ i → histB j = 0) →
      (fmswSearch histB 5 2).2 ≤ i ∧ i < (fmswSearch histB 5 2).2 + 2)) :=
  mber_c4_window_locator histB 5 2 (by norm_num) (by norm_num)

/-- C10: when the requested window width exceeds the histogram size,
find_max_sum_window returns -1 immediately and the output metrics BER1 and V1
are left unwritten (the none component). -/
theorem mber_c10_oversized_window (h : ℕ → ℤ) (size w : ℕ) (hw : size < w) :
    find_max_sum_window h size w = (-1, none) := by
  unfold find_max_sum_window
  rw [if_pos hw]

/-- C10 witness: requesting width 3 on a histogram of size 2. -/
theorem mber_c10_witness : find_max_sum_window (fun _ => 0) 2 3 = (-1, none) :=
  mber_c10_oversized_window (fun _ => 0) 2 3 (by norm_num)

/-! Ingestion and histogram building. -/

lemma binIndex_bounds (t : ℚ) (ht : 0 ≤ t) :
    0 ≤ binIndex t ∧ binIndex t < (WINDOW_SIZE : ℤ) := by
  have htr : 0 ≤ ctrunc t := by
    unfold ctrunc
    rw [if_pos ht]
    exact Int.floor_nonneg.mpr ht
  constructor
  · exact Int.tmod_nonneg _ htr
  · exact Int.tmod_lt_of_pos _ (by norm_num [WINDOW_SIZE])

lemma histTotal_bump (hist : ℤ → ℤ) (idx : ℤ) (h0 : 0 ≤ idx)
    (h1 : idx < (WINDOW_SIZE : ℤ)) :
    histTotal (histBump hist idx) = histTotal hist + 1 := by
  unfold histTotal histBump
  have hsplit : ∀ i : ℕ,
      (if (i : ℤ) = idx then hist (i : ℤ) + 1 else hist (i : ℤ)) =
        hist (i : ℤ) + (if i = idx.toNat then 1 else 0) := by
    intro i
    have hiff : ((i : ℤ) = idx) ↔ (i = idx.toNat) := by omega
    rw [if_congr hiff rfl rfl]
    split <;> ring
  rw [Finset.sum_congr rfl (fun i _ => hsplit i), Finset.sum_add_distrib,
    Finset.sum_ite_eq' (Finset.range WINDOW_SIZE) idx.toNat (fun _ => (1 : ℤ)),
    if_pos (Finset.mem_range.mpr (by omega))]

lemma histTotal_foldl (ts : List ℚ) :
    ∀ hist : ℤ → ℤ, (∀ t ∈ ts, 0 ≤ t) →
      histTotal (ts.foldl (fun acc t => histBump acc (binIndex t)) hist) =
        histTotal hist + ts.length := by
  induction ts with
  | nil => intro hist _; simp
  | cons t ts ih =>
    intro hist hpos
    have ht : 0 ≤ t := hpos t (List.mem_cons_self t ts)
    obtain ⟨hb0, hb1⟩ := binIndex_bounds t ht
    rw [List.foldl_cons, ih _ (fun x hx => hpos x (List.mem_cons_of_mem t hx)),
      histTotal_bump _ _ hb0 hb1, List.length_cons]
    push_cast
    ring

lemma histTotal_zero : histTotal (fun _ => 0) = 0 := by
  unfold histTotal
  exact Finset.sum_const_zero

lemma parseRows_all_good (ts : List ℚ) : parseRows (ts.map some) = ts := by
  induction ts with
  | nil => rfl
  | cons t ts ih => simp [parseRows, ih]

lemma parseRows_stops (ts : List ℚ) (rest : List (Option ℚ)) :
    parseRows (ts.map some ++ none :: rest) = ts := by
  induction ts with
  | nil => rfl
  | cons t ts ih => simp [parseRows, ih]

/-- C5: after ingestion the sum of all WINDOW_SIZE histogram bins equals the
number of successfully parsed data rows: a header plus N well-formed rows
(with the non-negative timestamps the data model prescribes) gives a total of
exactly N, and when the first malformed row sits at data-row position
length good + 1, parsing stops there and the total is that position minus
one. -/
theorem mber_c5_histogram_total (header : String) (good : List ℚ)
    (rest : List (Option ℚ)) (hpos : ∀ t ∈ good, 0 ≤ t) :
    histTotal (process_csv_and_create_histogram header (good.map some)) = good.length ∧
    histTotal (process_csv_and_create_histogram header (good.map some ++ none :: rest)) =
      good.length := by
  unfold process_csv_and_create_histogram buildHistogram
  rw [parseRows_all_good, parseRows_stops]
  rw [histTotal_foldl good _ hpos, histTotal_zero]
  norm_num

/-- C5 witness: two well-formed rows (timestamps 1500 and 33500.25) followed,
in the second scenario, by a malformed third row. -/
theorem mber_c5_witness :
    histTotal (process_csv_and_create_histogram "header"
      ([1500, 33500.25].map some)) = ([1500, 33500.25] : List ℚ).length ∧
    histTotal (process_csv_and_create_histogram "header"
      (([1500, 33500.25] : List ℚ).map some ++ none :: [some 5])) =
      ([1500, 33500.25] : List ℚ).length :=
  mber_c5_histogram_total "header" [1500, 33500.25] [some 5]
    (by intro t ht; rw [List.mem_cons, List.mem_singleton] at ht; rcases ht with rfl | rfl <;> norm_num)

/-- C9: for a non-negative ingested timestamp t, the bin chosen by the
histogram builder is the truncation of t toward zero reduced by the C
remainder modulo WINDOW_SIZE, this index lies in [0, 32000), and the
increment performed by the ingestion loop touches exactly that bin. -/
theorem mber_c9_bin_in_range (t : ℚ) (hist : ℤ → ℤ) (ht : 0 ≤ t) :
    binIndex t = Int.tmod (ctrunc t) 32000 ∧
    0 ≤ binIndex t ∧ binIndex t < 32000 ∧
    histBump hist (binIndex t) (binIndex t) = hist (binIndex t) + 1 ∧
    (∀ i, i ≠ binIndex t → histBump hist (binIndex t) i = hist i) := by
  obtain ⟨hb0, hb1⟩ := binIndex_bounds t ht
  refine ⟨rfl, hb0, by simpa [WINDOW_SIZE] using hb1, ?_, ?_⟩
  · unfold histBump
    rw [if_pos rfl]
  · intro i hi
    unfold histBump
    rw [if_neg hi]

/-- C9 witness: the timestamp 33500.75 folds to bin 1500 of the 32000-bin
histogram. -/
theorem mber_c9_witness :
    binIndex 33500.75 = Int.tmod (ctrunc 33500.75) 32000 ∧
    0 ≤ binIndex 33500.75 ∧ binIndex 33500.75 < 32000 ∧
    histBump (fun _ => 0) (binIndex 33500.75) (binIndex 33500.75) =
      (fun _ => (0 : ℤ)) (binIndex 33500.75) + 1 ∧
    (∀ i, i ≠ binIndex 33500.75 → histBump (fun _ => 0) (binIndex 33500.75) i =
      (fun _ => (0 : ℤ)) i) :=
  mber_c9_bin_in_range 33500.75 (fun _ => 0) (by norm_num)

/-! The guard-band optimizer sweep. -/

lemma CDouble.ltIrrefl (a : CDouble) : CDouble.lt a a = false := by
  cases a <;> simp [CDouble.lt]

lemma CDouble.ltTrans {a b c : CDouble} (h1 : CDouble.lt a b = true)
    (h2 : CDouble.lt b c = true) : CDouble.lt a c = true := by
  cases a <;> cases b <;> cases c <;>
    (simp only [CDouble.lt, decide_eq_true_eq, Bool.false_eq_true] at h1 h2 ⊢
     try exact lt_trans h1 h2)

lemma CDouble.ltShrink {x b b2 : CDouble} (hx : CDouble.lt x b = false)
    (hb : CDouble.lt b2 b = true) : CDouble.lt x b2 = false := by
  cases hxb : CDouble.lt x b2
  · rfl
  · have htr := CDouble.ltTrans hxb hb
    rw [hx] at htr
    exact absurd htr Bool.false_ne_true

lemma sweepUpdate_eq (st : CDouble × CDouble × ℕ × ℕ) (g : ℕ) (ber vis : CDouble) :
    sweepUpdate st g ber vis =
      ((if CDouble.lt ber st.1 then ber else st.1),
       (if CDouble.lt st.2.1 vis then vis else st.2.1),
       (if CDouble.lt ber st.1 then g else st.2.2.1),
       (if CDouble.lt st.2.1 vis then g else st.2.2.2)) := by
  unfold sweepUpdate
  cases hb : CDouble.lt ber st.1 <;> cases hv : CDouble.lt st.2.1 vis <;> simp [hb, hv]

lemma sweepStep_none (h : ℕ → ℤ) (start w : ℕ) :
    ∀ gs : List ℕ, List.foldl (sweepStep h start w) none gs = none := by
  intro gs
  induction gs with
  | nil => rfl
  | cons g gs ih => simpa [sweepStep] using ih

lemma sweepStep_inv (h : ℕ → ℤ) (start w : ℕ) (P : List ℕ)
    (st st2 : CDouble × CDouble × ℕ × ℕ) (g : ℕ)
    (hord : ∀ x ∈ P, x < g)
    (hstep : sweepStep h start w (some st) g = some st2)
    (hinv : sweepInv h start w P st) :
    sweepInv h start w (P ++ [g]) st2 := by
  obtain ⟨hBlb, hBch, hVlb, hVch⟩ := hinv
  simp only [sweepStep, Option.some_bind, Option.map_eq_some'] at hstep
  obtain ⟨vis, hvis, hupd⟩ := hstep
  rw [sweepUpdate_eq] at hupd
  have e1 : st2.1 =
      if CDouble.lt (berAt h start w g) st.1 then berAt h start w g else st.1 := by
    rw [← hupd]
  have e2 : st2.2.1 = if CDouble.lt st.2.1 vis then vis else st.2.1 := by
    rw [← hupd]
  have e3 : st2.2.2.1 =
      if CDouble.lt (berAt h start w g) st.1 then g else st.2.2.1 := by
    rw [← hupd]
  have e4 : st2.2.2.2 = if CDouble.lt st.2.1 vis then g else st.2.2.2 := by
    rw [← hupd]
  have hmem : ∀ x, x ∈ P ++ [g] → x ∈ P ∨ x = g := by
    intro x hx
    rcases List.mem_append.mp hx with hxP | hxg
    · exact Or.inl hxP
    · exact Or.inr (List.mem_singleton.mp hxg)
  refine ⟨?_, ?_, ?_, ?_⟩
  · -- min BER is a lower bound of all processed BERs
    intro x hx
    cases hb : CDouble.lt (berAt h start w g) st.1
    · rw [hb, if_neg Bool.false_ne_true] at e1
      rw [e1]
      rcases hmem x hx with hxP | rfl
      · exact hBlb x hxP
      · exact hb
    · rw [hb, if_pos rfl] at e1
      rw [e1]
      rcases hmem x hx with hxP | rfl
      · exact CDouble.ltShrink (hBlb x hxP) hb
      · exact CDouble.ltIrrefl _
  · -- BER champion
    cases hb : CDouble.lt (berAt h start w g) st.1
    · rw [hb, if_neg Bool.false_ne_true] at e1 e3
      rcases hBch with ⟨hz, hv1⟩ | ⟨hmemP, hat, hfirst⟩
      · exact Or.inl ⟨by rw [e3]; exact hz, by rw [e1]; exact hv1⟩
      · refine Or.inr ⟨by rw [e3]; exact List.mem_append_left _ hmemP,
          by rw [e3, e1]; exact hat, ?_⟩
        intro x hx hxlt
        rw [e3] at hxlt
        rw [e1]
        rcases hmem x hx with hxP | rfl
        · exact hfirst x hxP hxlt
        · exact absurd hxlt (by have := hord _ hmemP; omega)
    · rw [hb, if_pos rfl] at e1 e3
      refine Or.inr ⟨by rw [e3]; exact List.mem_append_right _ (List.mem_singleton.mpr rfl),
        by rw [e3, e1], ?_⟩
      intro x hx hxlt
      rw [e3] at hxlt
      rw [e1]
      rcases hmem x hx with hxP | rfl
      · intro heq
        have hcontr := hBlb x hxP
        rw [heq] at hcontr
        rw [hcontr] at hb
        exact Bool.false_ne_true hb
      · exact absurd hxlt (Nat.lt_irrefl x)
  · -- max visibility is an upper bound of all processed visibilities
    intro x hx v hv
    cases hvb : CDouble.lt st.2.1 vis
    · rw [hvb, if_neg Bool.false_ne_true] at e2
      rw [e2]
      rcases hmem x hx with hxP | rfl
      · exact hVlb x hxP v hv
      · rw [hvis] at hv
        injection hv with hv
        rw [← hv]
        exact hvb
    · rw [hvb, if_pos rfl] at e2
      rw [e2]
      rcases hmem x hx with hxP | rfl
      · cases hc : CDouble.lt vis v
        · rfl
        · have htr := CDouble.ltTrans hvb hc
          rw [hVlb x hxP v hv] at htr
          exact absurd htr Bool.false_ne_true
      · rw [hvis] at hv
        injection hv with hv
        rw [← hv]
        exact CDouble.ltIrrefl _
  · -- visibility champion
    cases hvb : CDouble.lt st.2.1 vis
    · rw [hvb, if_neg Bool.false_ne_true] at e2 e4
      rcases hVch with ⟨hz, hv0⟩ | ⟨hmemP, hat, hfirst⟩
      · exact Or.inl ⟨by rw [e4]; exact hz, by rw [e2]; exact hv0⟩
      · refine Or.inr ⟨by rw [e4]; exact List.mem_append_left _ hmemP,
          by rw [e4, e2]; exact hat, ?_⟩
        intro x hx hxlt
        rw [e4] at hxlt
        rw [e2]
        rcases hmem x hx with hxP | rfl
        · exact hfirst x hxP hxlt
        · exact absurd hxlt (by have := hord _ hmemP; omega)
    · rw [hvb, if_pos rfl] at e2 e4
      refine Or.inr ⟨by rw [e4]; exact List.mem_append_right _ (List.mem_singleton.mpr rfl),
        by rw [e4, e2]; exact hvis, ?_⟩
      intro x hx hxlt
      rw [e4] at hxlt
      rw [e2]
      rcases hmem x hx with hxP | rfl
      · intro heq
        have hcontr := hVlb x hxP vis heq
        rw [hcontr] at hvb
        exact Bool.false_ne_true hvb
      · exact absurd hxlt (Nat.lt_irrefl x)

lemma sweepFold_inv (h : ℕ → ℤ) (start w : ℕ) :
    ∀ (gs P : List ℕ) (st st2 : CDouble × CDouble × ℕ × ℕ),
      List.foldl (sweepStep h start w) (some st) gs = some st2 →
      (∀ x ∈ P, ∀ y ∈ gs, x < y) →
      List.Pairwise (· < ·) gs →
      sweepInv h start w P st →
      sweepInv h start w (P ++ gs) st2 := by
  intro gs
  induction gs with
  | nil =>
    intro P st st2 hfold _ _ hinv
    rw [List.foldl_nil] at hfold
    injection hfold with hfold
    subst hfold
    simpa using hinv
  | cons g gs ih =>
    intro P st st2 hfold hord hpair hinv
    rw [List.foldl_cons] at hfold
    cases hmid : sweepStep h start w (some st) g with
    | none =>
      rw [hmid, sweepStep_none] at hfold
      exact absurd hfold (by simp)
    | some st1 =>
      rw [hmid] at hfold
      have hpair1 := List.pairwise_cons.mp hpair
      have hstep := sweepStep_inv h start w P st st1 g
        (fun x hx => hord x hx g (List.mem_cons_self g gs)) hmid hinv
      have := ih (P ++ [g]) st1 st2 hfold
        (by
          intro x hx y hy
          rcases List.mem_append.mp hx with hxP | hxg
          · exact hord x hxP y (List.mem_cons_of_mem g hy)
          · rw [List.mem_singleton.mp hxg]
            exact hpair1.1 y hy)
        hpair1.2 hstep
      simpa [List.append_assoc] using this

/-- C8 amended: when the optimizer sweep completes (no iteration hits the
undefined division in V2) and reports state (mB, mV, gB, gV), then mB bounds
every swept BER from below in the C comparison order and either no swept width
beat the initial champion BER 1.0, in which case the reported width is the
out-of-sweep initializer 0, or gB lies in the sweep, attains mB, and is the
first sweep width to do so; symmetrically mV bounds every swept visibility
from above and either no width beat the initial visibility 0.0 and gV is the
initializer 0, or gV lies in the sweep, attains mV, and is the first to do
so. -/
theorem mber_c8_sweep_champions (h : ℕ → ℤ) (start w : ℕ)
    (mB mV : CDouble) (gB gV : ℕ)
    (hres : find_optimal_guard_bands h start w = some (mB, mV, gB, gV)) :
    (∀ g, MIN_GUARD_BAND ≤ g → g ≤ MAX_GUARD_BAND →
      CDouble.lt (berAt h start w g) mB = false) ∧
    ((gB = 0 ∧ mB = CDouble.val 1) ∨
      (MIN_GUARD_BAND ≤ gB ∧ gB ≤ MAX_GUARD_BAND ∧ berAt h start w gB = mB ∧
        ∀ g, MIN_GUARD_BAND ≤ g → g < gB → berAt h start w g ≠ mB)) ∧
    (∀ g v, MIN_GUARD_BAND ≤ g → g ≤ MAX_GUARD_BAND →
      visAt h start w g = some v → CDouble.lt mV v = false) ∧
    ((gV = 0 ∧ mV = CDouble.val 0) ∨
      (MIN_GUARD_BAND ≤ gV ∧ gV ≤ MAX_GUARD_BAND ∧ visAt h start w gV = some mV ∧
        ∀ g, MIN_GUARD_BAND ≤ g → g < gV → visAt h start w g ≠ some mV)) := by
  unfold find_optimal_guard_bands at hres
  have hmm : ∀ x : ℕ, x ∈ List.range' MIN_GUARD_BAND
      (MAX_GUARD_BAND - MIN_GUARD_BAND + 1) GUARD_BAND_STEP ↔
      MIN_GUARD_BAND ≤ x ∧ x ≤ MAX_GUARD_BAND := by
    intro x
    rw [show GUARD_BAND_STEP = 1 from rfl]
    rw [List.mem_range'_1]
    simp only [MIN_GUARD_BAND, MAX_GUARD_BAND]
    omega
  have hinv := sweepFold_inv h start w
    (List.range' MIN_GUARD_BAND (MAX_GUARD_BAND - MIN_GUARD_BAND + 1) GUARD_BAND_STEP)
    [] (CDouble.val 1, CDouble.val 0, 0, 0) (mB, mV, gB, gV) hres
    (by intro x hx; exact absurd hx (List.not_mem_nil x))
    (by rw [show GUARD_BAND_STEP = 1 from rfl]; exact List.pairwise_lt_range' _ _)
    ⟨by intro g hg; exact absurd hg (List.not_mem_nil g),
      Or.inl ⟨rfl, rfl⟩,
      by intro g hg; exact absurd hg (List.not_mem_nil g),
      Or.inl ⟨rfl, rfl⟩⟩
  rw [List.nil_append] at hinv
  obtain ⟨hBlb, hBch, hVlb, hVch⟩ := hinv
  refine ⟨?_, ?_, ?_, ?_⟩
  · intro g hg1 hg2
    exact hBlb g ((hmm g).mpr ⟨hg1, hg2⟩)
  · rcases hBch with hinit | ⟨hmemP, hat, hfirst⟩
    · exact Or.inl hinit
    · obtain ⟨hm1, hm2⟩ := (hmm _).mp hmemP
      have hm1g : MIN_GUARD_BAND ≤ gB := hm1
      have hm2g : gB ≤ MAX_GUARD_BAND := hm2
      exact Or.inr ⟨hm1g, hm2g, hat,
        fun g hg1 hglt => hfirst g ((hmm g).mpr ⟨hg1, by omega⟩) hglt⟩
  · intro g v hg1 hg2 hv
    exact hVlb g ((hmm g).mpr ⟨hg1, hg2⟩) v hv
  · rcases hVch with hinit | ⟨hmemP, hat, hfirst⟩
    · exact Or.inl hinit
    · obtain ⟨hm1, hm2⟩ := (hmm _).mp hmemP
      have hm1g : MIN_GUARD_BAND ≤ gV := hm1
      have hm2g : gV ≤ MAX_GUARD_BAND := hm2
      exact Or.inr ⟨hm1g, hm2g, hat,
        fun g hg1 hglt => hfirst g ((hmm g).mpr ⟨hg1, by omega⟩) hglt⟩

lemma excludedBin_spike (g i : ℕ) (hg : g ≤ 300) (hi : 200 ≤ i) (hi2 : i ≤ 202) :
    ¬ excludedBin 202 g i := by
  have hhalf : g / 2 ≤ 150 := by omega
  unfold excludedBin
  omega

lemma guardSums_spike (g : ℕ) (hg : g ≤ 300) : guardSums histSpike 200 3 g = (0, 5, 0) := by
  have h0 : ¬ excludedBin 202 g 200 := excludedBin_spike g 200 hg (by omega) (by omega)
  have h1 : ¬ excludedBin 202 g 201 := excludedBin_spike g 201 hg (by omega) (by omega)
  have h2 : ¬ excludedBin 202 g 202 := excludedBin_spike g 202 hg (by omega) (by omega)
  unfold guardSums partFold
  rw [show List.range 3 = [0, 1, 2] from rfl]
  simp only [List.foldl_cons, List.foldl_nil]
  norm_num [h0, h1, h2, histSpike]

lemma applyGuard_spike (g : ℕ) (hg : g ≤ 300) :
    apply_guard_bands_and_calculate histSpike 200 3 g =
      (CDouble.val 1, some (CDouble.val 0)) := by
  unfold apply_guard_bands_and_calculate
  rw [guardSums_spike g hg]
  norm_num [fdiv, cIntDiv, Int.zero_tdiv]

lemma sweepStep_spike (g : ℕ) (hg : g ≤ 300) :
    sweepStep histSpike 200 3 (some (CDouble.val 1, CDouble.val 0, 0, 0)) g =
      some (CDouble.val 1, CDouble.val 0, 0, 0) := by
  unfold sweepStep berAt visAt
  rw [applyGuard_spike g hg]
  simp [sweepUpdate_eq, CDouble.ltIrrefl]

lemma find_optimal_spike :
    find_optimal_guard_bands histSpike 200 3 =
      some (CDouble.val 1, CDouble.val 0, 0, 0) := by
  unfold find_optimal_guard_bands
  have haux : ∀ gs : List ℕ, (∀ g ∈ gs, g ≤ 300) →
      List.foldl (sweepStep histSpike 200 3)
        (some (CDouble.val 1, CDouble.val 0, 0, 0)) gs =
        some (CDouble.val 1, CDouble.val 0, 0, 0) := by
    intro gs
    induction gs with
    | nil => intro _; rfl
    | cons g gs ih =>
      intro hall
      rw [List.foldl_cons, sweepStep_spike g (hall g (List.mem_cons_self g gs))]
      exact ih (fun x hx => hall x (List.mem_cons_of_mem g hx))
  apply haux
  intro g hg
  rw [show GUARD_BAND_STEP = 1 from rfl, List.mem_range'_1] at hg
  simp only [MIN_GUARD_BAND, MAX_GUARD_BAND] at hg
  omega

/-- C8 counterexample: on the histogram with a single spike of 5 counts at
bin 201, analyzed with window start 200 and width 3, every swept guard band
yields BER exactly 1.0 and visibility exactly 0.0, so neither strict
comparison ever beats the initializers; the optimizer therefore reports both
optimal widths as 0, which does not belong to the sweep 100..300 and is not a
width that was swept at all. -/
theorem mber_c8_counterexample :
    find_optimal_guard_bands histSpike 200 3 =
      some (CDouble.val 1, CDouble.val 0, 0, 0) ∧
    ¬ MIN_GUARD_BAND ≤ 0 :=
  ⟨find_optimal_spike, by norm_num [MIN_GUARD_BAND]⟩

/-- C8 witness: the amended sweep theorem applied to the spike histogram run
whose sweep completes with state (1.0, 0.0, 0, 0). -/
theorem mber_c8_witness :
    (∀ g, MIN_GUARD_BAND ≤ g → g ≤ MAX_GUARD_BAND →
      CDouble.lt (berAt histSpike 200 3 g) (CDouble.val 1) = false) ∧
    (((0 : ℕ) = 0 ∧ CDouble.val 1 = CDouble.val 1) ∨
      (MIN_GUARD_BAND ≤ 0 ∧ (0 : ℕ) ≤ MAX_GUARD_BAND ∧
        berAt histSpike 200 3 0 = CDouble.val 1 ∧
        ∀ g, MIN_GUARD_BAND ≤ g → g < 0 → berAt histSpike 200 3 g ≠ CDouble.val 1)) ∧
    (∀ g v, MIN_GUARD_BAND ≤ g → g ≤ MAX_GUARD_BAND →
      visAt histSpike 200 3 g = some v → CDouble.lt (CDouble.val 0) v = false) ∧
    (((0 : ℕ) = 0 ∧ CDouble.val 0 = CDouble.val 0) ∨
      (MIN_GUARD_BAND ≤ 0 ∧ (0 : ℕ) ≤ MAX_GUARD_BAND ∧
        visAt histSpike 200 3 0 = some (CDouble.val 0) ∧
        ∀ g, MIN_GUARD_BAND ≤ g → g < 0 → visAt histSpike 200 3 g ≠ some (CDouble.val 0))) :=
  mber_c8_sweep_champions histSpike 200 3 (CDouble.val 1) (CDouble.val 0) 0 0
    find_optimal_spike

/-! The two metric computations at concrete inputs (claims C1 and C2). -/

/-- C1: the claim says both metric paths evaluate Visibility as exact real
division.  On the histogram with counts 1 at bin 0 and 2 at bin 2,
find_max_sum_window picks the window starting at 0 with partition sums
C1 = 1, D1 = 2, C2 = 0 and writes V1 = 0.5 by floating division (line 149);
apply_guard_bands_and_calculate over the same window and sums (guard band 0)
writes V2 = 0 because line 201 divides in int arithmetic and truncates
1 / 2 to 0 before converting to double.  The two paths disagree, refuting the
claim against the code; the BER formulas of the two paths do agree. -/
theorem mber_c1_visibility_truncated :
    plainSums histA 0 6 = (1, 2, 0) ∧
    (find_max_sum_window histA 10 6).2 = some (fdiv 2 3, fdiv 1 2) ∧
    fdiv 1 2 = CDouble.val (1 / 2) ∧
    guardSums histA 0 6 0 = (1, 2, 0) ∧
    (apply_guard_bands_and_calculate histA 0 6 0).2 = some (CDouble.val 0) ∧
    CDouble.val 0 ≠ CDouble.val (1 / 2) := by
  refine ⟨by decide, by rfl, ?_, by decide, ?_, ?_⟩
  · norm_num [fdiv]
  · have hg : guardSums histA 0 6 0 = (1, 2, 0) := by decide
    unfold apply_guard_bands_and_calculate
    rw [hg]
    norm_num [cIntDiv]
    decide
  · simp only [ne_eq, CDouble.val.injEq]
    norm_num

/-- C2: the claim says both metric paths always produce a (possibly
non-finite) floating result at zero denominators.  On the all-zero histogram
the pre-guard-band path does: it writes BER1 = V1 = NaN (the floating 0/0).
The guard-banded path writes BER2 = NaN but its V2 evaluates the C int
division 0 / 0, which is undefined behavior (modelled none) and on real
hardware typically aborts the process instead of producing a non-finite
value. -/
theorem mber_c2_zero_denominators :
    guardSums (fun _ => 0) 0 6 0 = (0, 0, 0) ∧
    apply_guard_bands_and_calculate (fun _ => 0) 0 6 0 = (CDouble.nan, none) ∧
    (find_max_sum_window (fun _ => 0) 10 6).2 = some (CDouble.nan, CDouble.nan) := by
  refine ⟨by decide, by decide, by decide⟩

end MBer
